import Mathlib

/-!
# Verification of the afk distributed message-claiming core

Shallow embedding of the message-queue, session, reply-lock, mode-resolution
and approval-wait logic of the afk repository
(`src/lib/services/queue.js`, `src/lib/services/sessions.js`,
`src/lib/integration/claude-hooks.js`, and the `ConfigManager` module).

File-system reads are modelled by a `FileRead` value (missing file, read
error, or content); JS timestamps are integers (milliseconds); JS float
division in the abandonment check is modelled over `ℚ` (exact for the
magnitudes involved); the lock file used by `atomicClaimMessage` is an
`Option String` holding the lock owner.  Each definition follows the
corresponding source function line by line.
-/

namespace Afk

/-- Result of attempting to read a file: the file may be absent, the read
may throw, or it yields a string.  Mirrors the `fs.existsSync` /
`fs.readFileSync` / `catch` pattern used throughout the source. -/
inductive FileRead where
  | missing
  | unreadable
  | content (s : String)
deriving DecidableEq, Repr

/-- JS `String.prototype.trim()`: strip whitespace from both ends. -/
def jsTrim (s : String) : String :=
  ⟨(((s.data.dropWhile Char.isWhitespace).reverse.dropWhile Char.isWhitespace).reverse)⟩

/-- `ConfigManager.readMode` (unnamed/part_001 lines 120-133): read the
global mode file, trim it, and return it only when it is exactly
`remote`, `local` or `readonly`; otherwise (including a missing file or a
read error) return the default `local`. -/
def readMode (stateFile : FileRead) : String :=
  match stateFile with
  | .missing => "local"
  | .unreadable => "local"
  | .content s =>
      let mode := jsTrim s
      if mode = "remote" ∨ mode = "local" ∨ mode = "readonly" then mode else "local"

/-- `ClaudeHooksService.getSessionMode` (claude-hooks.js lines 2394-2407):
return the trimmed content of the per-session mode file, or `null` when the
file is missing or unreadable.  No validation of the content is done. -/
def getSessionMode (modeFile : FileRead) : Option String :=
  match modeFile with
  | .missing => none
  | .unreadable => none
  | .content s => some (jsTrim s)

/-- `ClaudeHooksService.getProjectMode` (claude-hooks.js lines 2434-2462):
return the trimmed content of `.afk/mode` if present, else of
`.claude/afk-mode` if present, else `null`.  A missing or unreadable first
file falls through to the second.  No validation of the content is done. -/
def getProjectMode (afkModeFile claudeModeFile : FileRead) : Option String :=
  match afkModeFile with
  | .content s => some (jsTrim s)
  | _ =>
      match claudeModeFile with
      | .content s => some (jsTrim s)
      | _ => none

/-- JS truthiness of a `string | null` value: `null` and the empty string
are falsy. -/
def truthy : Option String → Bool
  | none => false
  | some s => s ≠ ""

/-- `ClaudeHooksService.getEffectiveMode` (claude-hooks.js lines 2492-2514):
session-level mode if truthy, else project-level mode if truthy, else the
validated global `ConfigManager.readMode`. -/
def getEffectiveMode (sessionModeFile afkModeFile claudeModeFile globalModeFile : FileRead) :
    String :=
  let sessionMode := getSessionMode sessionModeFile
  if truthy sessionMode then sessionMode.getD ""
  else
    let projectMode := getProjectMode afkModeFile claudeModeFile
    if truthy projectMode then projectMode.getD ""
    else readMode globalModeFile

/-- `ClaudeHooksService.readMode` (claude-hooks.js lines 1700-1709), the
function handed to the poller as its cancellation source: the *raw* trimmed
content of the global mode file, with `local` for a missing or unreadable
file.  Unlike `ConfigManager.readMode` it does not validate the content. -/
def hooksReadMode (stateFile : FileRead) : String :=
  match stateFile with
  | .missing => "local"
  | .unreadable => "local"
  | .content s => jsTrim s

/-! ## Sessions service (`src/lib/services/sessions.js`) -/

/-- One entry of `active-sessions.json`: the session id together with its
`lastActivity` heartbeat timestamp (epoch milliseconds).  The remaining
fields (`toolCall`, `metadata`, `startTime`) play no role in abandonment
detection. -/
structure SessionRec where
  sessionId : String
  lastActivity : Int
deriving DecidableEq, Repr

/-- `SessionsService.checkAbandonedSessions` (sessions.js lines 128-153):
return exactly the tracked sessions whose heartbeat age
`(now - lastActivity) / 1000` seconds strictly exceeds `timeoutSeconds`.
The JS float division is modelled exactly over `ℚ`. -/
def checkAbandonedSessions (now : Int) (timeoutSeconds : Int)
    (sessions : List SessionRec) : List SessionRec :=
  sessions.filter fun s =>
    decide ((((now - s.lastActivity : Int) : ℚ) / 1000) > (timeoutSeconds : ℚ))

/-- The reply lock record written by `SessionsService.setReplyLock`
(sessions.js lines 356-369): owning session, bound message id, acquisition
timestamp. -/
structure ReplyLock where
  sessionId : String
  messageId : Int
  timestamp : Int
deriving DecidableEq, Repr

/-- An incoming Telegram message as far as reply-lock routing is concerned:
optionally a structured reply carrying the `message_id` of the message it
replies to. -/
structure TgMessage where
  reply_to_message : Option Int
deriving DecidableEq, Repr

/-- `SessionsService.isMyMessage` (sessions.js lines 410-441): with no lock
held any session may take the message; the lock owner may take it; a
structured reply to exactly the locked message id may be taken; everything
else is rejected.  The `lock` argument is the current result of
`getReplyLock` (sessions.js lines 376-387), `none` when no lock file exists
or it cannot be parsed. -/
def isMyMessage (lock : Option ReplyLock) (sessionId : String) (message : TgMessage) : Bool :=
  match lock with
  | none => true
  | some l =>
      if l.sessionId = sessionId then true
      else
        match message.reply_to_message with
        | some mid => mid = l.messageId
        | none => false

/-! ## Queue service (`src/lib/services/queue.js`) -/

/-- A Telegram update as far as the queue is concerned: its source-assigned
`update_id`, the optional `callback_query.data` string, and an opaque
payload discriminator for everything else. -/
structure Update where
  update_id : Nat
  callback_data : Option String
  payload : Nat
deriving DecidableEq, Repr

/-- One line of `global.jsonl` as written by `appendToGlobalQueue`
(queue.js lines 84-91): the `update_id` copied out of the update, and the
update itself.  (The wall-clock `timestamp` field carries no information
used by any queue operation and is omitted.) -/
structure Entry where
  update_id : Nat
  update : Update
deriving DecidableEq, Repr

/-- The durable queue files: `global.jsonl` (append-only message log) and
`processed.jsonl` (append-only claim log of `(update_id, processed_by)`
records). -/
structure QueueState where
  globalQueue : List Entry
  processed : List (Nat × String)
deriving DecidableEq, Repr

/-- `QueueService.getProcessedUpdateIds` (queue.js lines 229-258): the set
of `update_id`s recorded in `processed.jsonl`.  Line 246 guards the insert
with the JS truthiness test `if (entry.update_id)`, so a falsy id 0 is
never added to the set. -/
def getProcessedUpdateIds (s : QueueState) : List Nat :=
  (s.processed.map Prod.fst).filter fun i => decide (i ≠ 0)

/-- `QueueService.getGlobalQueueUpdateIds` (queue.js lines 264-293): the
set of `update_id`s present in `global.jsonl`.  Line 281 guards the insert
with the JS truthiness test `if (entry.update_id)`, so a falsy id 0 is
never added to the set. -/
def getGlobalQueueUpdateIds (s : QueueState) : List Nat :=
  (s.globalQueue.map Entry.update_id).filter fun i => decide (i ≠ 0)

/-- `QueueService.appendToGlobalQueue` (queue.js lines 78-97): append one
entry per update, unconditionally, in order. -/
def appendToGlobalQueue (updates : List Update) (s : QueueState) : QueueState :=
  { s with globalQueue := s.globalQueue ++ updates.map fun u => ⟨u.update_id, u⟩ }

/-- `QueueService.getMyMessages` (queue.js lines 197-223): the entries of
`global.jsonl`, in order, whose `update_id` is not in the processed set and
whose update passes `filterFn`. -/
def getMyMessages (filterFn : Update → Bool) (s : QueueState) : List Entry :=
  s.globalQueue.filter fun e =>
    !(getProcessedUpdateIds s).contains e.update_id && filterFn e.update

/-- `QueueService.markUpdateAsProcessed` (queue.js lines 301-316): append a
claim record to `processed.jsonl`. -/
def markUpdateAsProcessed (updateId : Nat) (processedBy : String) (s : QueueState) :
    QueueState :=
  { s with processed := s.processed ++ [(updateId, processedBy)] }

/-- The critical section of `QueueService.atomicClaimMessage` (queue.js
lines 137-145), i.e. the behaviour of the whole call when the lock is
uncontended: take the first unprocessed matching entry, mark it processed,
and return it; return `null` when nothing matches. -/
def claimCritical (filterFn : Update → Bool) (hookId : String) (s : QueueState) :
    Option Entry × QueueState :=
  match getMyMessages filterFn s with
  | [] => (none, s)
  | m :: _ => (some m, markUpdateAsProcessed m.update_id hookId s)

/-- The dedup-then-append step of `distributedTelegramPoll` (queue.js
lines 500-510): drop every fetched update whose id is already in the
processed set or already in the global queue, then append the rest. -/
def dedupThenAppend (updates : List Update) (s : QueueState) : QueueState :=
  let newUpdates := updates.filter fun u =>
    !(getProcessedUpdateIds s).contains u.update_id &&
    !(getGlobalQueueUpdateIds s).contains u.update_id
  appendToGlobalQueue newUpdates s

/-- All ids the dedup step tests against (the spec's `allKnownIds()`): ids
in the global queue together with ids in the processed log. -/
def knownIds (s : QueueState) : Finset Nat :=
  (getGlobalQueueUpdateIds s).toFinset ∪ (getProcessedUpdateIds s).toFinset

/-- Number of envelopes in the global queue carrying a given `update_id`. -/
def entryCount (i : Nat) (s : QueueState) : Nat :=
  (s.globalQueue.filter fun e => e.update_id = i).length

/-- A queue operation performed by the (single-process, lock-uncontended)
poller: a dedup-then-append of a fetched batch, or a claim attempt. -/
inductive QOp where
  | fetch (updates : List Update)
  | claim (filterFn : Update → Bool) (hookId : String)

/-- One queue operation: returns the new state and the claimed `update_id`
if the operation was a successful claim. -/
def qstep (s : QueueState) : QOp → QueueState × Option Nat
  | .fetch us => (dedupThenAppend us s, none)
  | .claim f h =>
      match claimCritical f h s with
      | (some m, s1) => (s1, some m.update_id)
      | (none, s1) => (s1, none)

/-- Run a sequence of queue operations, collecting every claimed id in
order. -/
def qrun : List QOp → QueueState → QueueState × List Nat
  | [], s => (s, [])
  | op :: ops, s =>
      let r := qstep s op
      let rest := qrun ops r.1
      (rest.1, r.2.toList ++ rest.2)

/-- The initial queue state: `initMessageQueue` (queue.js lines 41-71)
creates both files empty. -/
def initQueueState : QueueState := ⟨[], []⟩

/-! ## The distributed poll loop (`distributedTelegramPoll`, queue.js 454-562)

One loop iteration ("tick") observes the environment: what `readMode()`
returns, whether the `getUpdates` call throws, and if not which updates it
returned.  The `while (Date.now() - startTime < timeoutMs)` guard is
modelled by the length of the tick trace: the trace holds exactly the
iterations whose guard check passed, and exhausting it is the code path
that falls out of the loop and throws the polling-timeout error
(queue.js line 561).  The adaptive delay, heartbeat and abandoned-session
sweep (lines 524-553) do not influence the returned value and touch only
the sessions state, so they are not part of this queue-level model. -/

/-- The environment of one poll-loop iteration. -/
structure Tick where
  mode : String
  fetchErr : Bool
  fetched : List Update
deriving DecidableEq, Repr

/-- Outcome of `distributedTelegramPoll`: a claimed update returned
(line 521), `null` returned on a mode flip to `local` (line 487), or the
timeout error thrown after the loop (line 561). -/
inductive PollResult where
  | claimed (u : Update)
  | cancelled
  | timedOut
deriving DecidableEq, Repr

/-- `distributedTelegramPoll`'s loop body, per tick and in source order:
check `readMode() === 'local'` and return `null` (lines 483-488); fetch —
a throw is caught and the loop continues after a delay (lines 554-558);
dedup-then-append the fetched batch (lines 496-515); `atomicClaimMessage`
and return the claimed update on success (lines 518-522); otherwise sleep
and loop.  An exhausted trace throws the timeout error (line 561). -/
def pollLoop (filterFn : Update → Bool) (hookId : String) :
    List Tick → QueueState → PollResult × QueueState
  | [], s => (.timedOut, s)
  | t :: rest, s =>
      if t.mode = "local" then (.cancelled, s)
      else if t.fetchErr then pollLoop filterFn hookId rest s
      else
        let s1 := dedupThenAppend t.fetched s
        match claimCritical filterFn hookId s1 with
        | (some m, s2) => (.claimed m.update, s2)
        | (none, s2) => pollLoop filterFn hookId rest s2

/-! ## `waitForApproval` (claude-hooks.js lines 2110-2169) -/

/-- The structured permission decision inside
`hookSpecificOutput.decision`. -/
structure Decision where
  behavior : String
  message : Option String
deriving DecidableEq, Repr

/-- How a `waitForApproval` call terminates: with a structured decision,
by delegating a claimed callback update to `processToolApproval`
(line 2144), with `null` — "no opinion, fall through to normal Claude UI
prompt" (line 2168) — or by an exception propagating out of the call
(there is no try/catch around the poll at line 2131). -/
inductive ApprovalOutcome where
  | decided (d : Decision)
  | processedCallback (u : Update)
  | noOpinion
  | raised
deriving DecidableEq, Repr

/-- `ConfigManager.cfg()` defaulting of `timeout_seconds`
(part_001 line 78): JS `config.timeout_seconds || 3600`, so a missing,
zero or null value becomes 3600. -/
def cfgTimeoutSeconds (raw : Option Int) : Int :=
  match raw with
  | none => 3600
  | some v => if v = 0 then 3600 else v

/-- `ConfigManager.cfg()` defaulting of `timeout_action`
(part_001 line 79) combined with line 2112's `|| 'deny'`: a missing or
empty value becomes `deny`. -/
def cfgTimeoutAction (raw : Option String) : String :=
  match raw with
  | none => "deny"
  | some a => if a = "" then "deny" else a

/-- `waitForApproval`'s message filter (lines 2120-2124): the update must
carry a `callback_query` whose `data` contains the approval id. -/
def approvalFilter (approvalId : String) (u : Update) : Bool :=
  match u.callback_data with
  | none => false
  | some d => decide (approvalId.toList <:+: d.toList)

/-- `waitForApproval` (claude-hooks.js lines 2110-2169), composed with the
poll-loop model.  `timeout` is computed from the config (lines 2111-2115),
the poll is awaited with no exception handler (line 2131), a claimed
callback update goes to `processToolApproval` (lines 2143-2145), and any
other poll return value falls into the "Handle timeout" block
(lines 2147-2168): `allow` and `deny` produce their structured decisions,
any other action returns `null`. -/
def waitForApproval (rawTimeoutSeconds : Option Int) (rawTimeoutAction : Option String)
    (approvalId : String) (ticks : List Tick) (s : QueueState) : ApprovalOutcome :=
  let configTimeout := cfgTimeoutSeconds rawTimeoutSeconds
  let timeoutAction := cfgTimeoutAction rawTimeoutAction
  let timeout : Int :=
    if configTimeout = 0 ∨ configTimeout = -1 then 999999 else configTimeout
  let hookId := "approval-" ++ approvalId
  match (pollLoop (approvalFilter approvalId) hookId ticks s).1 with
  | .timedOut => .raised
  | r =>
      let update : Option Update :=
        match r with
        | .claimed u => some u
        | _ => none
      match update with
      | some u =>
          if u.callback_data.isSome then .processedCallback u
          else
            if timeoutAction = "allow" then
              .decided ⟨"allow", none⟩
            else if timeoutAction = "deny" then
              .decided ⟨"deny", some ("Auto-denied after " ++ toString timeout ++ "s timeout")⟩
            else .noOpinion
      | none =>
          if timeoutAction = "allow" then
            .decided ⟨"allow", none⟩
          else if timeoutAction = "deny" then
            .decided ⟨"deny", some ("Auto-denied after " ++ toString timeout ++ "s timeout")⟩
          else .noOpinion

/-! ## Multi-process model of `atomicClaimMessage` (queue.js lines 105-159)

Several OS processes run `atomicClaimMessage` against the shared queue
files and the shared lock file `locks/message-claim.lock`.  Each process is
at one of these phases; one interleaving step executes one file-system
operation of one process, following the source exactly:

* `acquiring a` — attempt `a` of the `for (attempt = 0; attempt < 50; …)`
  loop (lines 114-135): an exclusive create of the lock file.  If the file
  is absent the create succeeds and the process `break`s into the scan
  holding the lock.  If it exists (`EEXIST`), the loop body `continue`s;
  the `if (attempt === maxAttempts - 1) return null` that follows the
  `try/catch` (lines 131-134) is unreachable, because every path through
  the `try/catch` ends in `break`, `continue` or `throw` — so after the
  50th failed attempt the `for` loop simply ends and control falls through
  to line 138 *without the lock*.
* `scanning h` — the `getMyMessages(filterFn)` read (line 138); `h` records
  whether this process actually holds the lock.
* `writing m h` — the `markUpdateAsProcessed` append (line 141) for the
  first matching entry `m`.
* `releasing r h` — the `finally` block (lines 149-158): it unlinks the
  lock file whenever it exists, whether or not this process created it.
* `done r` — the call returned `r`. -/

/-- Phase of one process inside `atomicClaimMessage`. -/
inductive Phase where
  | acquiring (attempt : Nat)
  | scanning (lockHeld : Bool)
  | writing (m : Entry) (lockHeld : Bool)
  | releasing (result : Option Entry) (lockHeld : Bool)
  | done (result : Option Entry)
deriving DecidableEq, Repr

/-- Identity of one claiming process: its `hookId` and its message
filter. -/
structure ProcSpec where
  hookId : String
  filterFn : Update → Bool

/-- Shared state of the interleaved system: the queue files, the lock file
(`some owner` when `locks/message-claim.lock` exists, holding the writer's
`hookId`), and each process's phase. -/
structure SysState where
  queue : QueueState
  lock : Option String
  phases : List Phase
deriving Repr

/-- `maxAttempts` (queue.js line 113). -/
def maxAttempts : Nat := 50

/-- One step of process `i`: execute its next file-system operation of
`atomicClaimMessage` and advance its phase. -/
def sysStep (specs : List ProcSpec) (st : SysState) (i : Nat) : SysState :=
  match specs[i]?, st.phases[i]? with
  | some spec, some ph =>
      match ph with
      | .acquiring a =>
          match st.lock with
          | none =>
              { st with lock := some spec.hookId,
                        phases := st.phases.set i (.scanning true) }
          | some _ =>
              if a + 1 < maxAttempts then
                { st with phases := st.phases.set i (.acquiring (a + 1)) }
              else
                { st with phases := st.phases.set i (.scanning false) }
      | .scanning h =>
          match getMyMessages spec.filterFn st.queue with
          | [] => { st with phases := st.phases.set i (.releasing none h) }
          | m :: _ => { st with phases := st.phases.set i (.writing m h) }
      | .writing m h =>
          { st with queue := markUpdateAsProcessed m.update_id spec.hookId st.queue,
                    phases := st.phases.set i (.releasing (some m) h) }
      | .releasing r _ =>
          { st with lock := none,
                    phases := st.phases.set i (.done r) }
      | .done _ => st
  | _, _ => st

/-- Run a schedule: a list of process indices, each performing one step. -/
def sysRun (specs : List ProcSpec) (sched : List Nat) (st : SysState) : SysState :=
  sched.foldl (sysStep specs) st

/-- The single queued update used by the concrete interleaving runs. -/
def u1 : Update := ⟨1, none, 0⟩

/-- An update whose `update_id` is the JS-falsy 0, invisible to the
truthiness-guarded id sets of queue.js lines 246 and 281. -/
def u0 : Update := ⟨0, none, 0⟩

/-- The single queued envelope used by the concrete interleaving runs. -/
def e1 : Entry := ⟨1, u1⟩

/-- Two racing claimants whose filters match every update. -/
def raceSpecs : List ProcSpec := [⟨"A", fun _ => true⟩, ⟨"B", fun _ => true⟩]

/-- Race start state: one unclaimed envelope, no lock, both processes at
their first lock attempt. -/
def raceInit : SysState := ⟨⟨[e1], []⟩, none, [.acquiring 0, .acquiring 0]⟩

/-- Race schedule: `A` acquires the lock; `B` fails all 50 lock attempts
(`EEXIST` each time, since `A` holds the lock) and falls through the
retry loop; then both scan before either writes, both write, both run
their `finally`. -/
def raceSched : List Nat := [0] ++ List.replicate 50 1 ++ [0, 1, 0, 1, 0, 1]

/-- A single claimant whose filter matches every update. -/
def soloSpecs : List ProcSpec := [⟨"B", fun _ => true⟩]

/-- Lock-exhaustion start state: one unclaimed envelope, with the lock file
held throughout by another process (`other`) that never releases it. -/
def soloInit : SysState := ⟨⟨[e1], []⟩, some "other", [.acquiring 0]⟩

/-- Lock-exhaustion schedule: all 50 lock attempts fail, then the process
falls through to scan, write and release. -/
def soloSched : List Nat := List.replicate 50 0 ++ [0, 0, 0]

/-! ## Theorems -/

/-- C10: `ConfigManager.readMode` is total and always returns a member of
`{remote, local, readonly}`: a missing mode file, an unreadable file, and
content that after trimming is not exactly one of the three valid modes
all yield the default `local`; valid content is returned trimmed. -/
theorem readMode_total_and_valid :
    (∀ f : FileRead, readMode f = "remote" ∨ readMode f = "local" ∨ readMode f = "readonly")
    ∧ readMode .missing = "local"
    ∧ readMode .unreadable = "local"
    ∧ (∀ c : String, jsTrim c ≠ "remote" → jsTrim c ≠ "local" → jsTrim c ≠ "readonly" →
        readMode (.content c) = "local")
    ∧ (∀ c : String, (jsTrim c = "remote" ∨ jsTrim c = "local" ∨ jsTrim c = "readonly") →
        readMode (.content c) = jsTrim c) := by
  refine ⟨?_, rfl, rfl, ?_, ?_⟩
  · intro f
    cases f with
    | missing => simp [readMode]
    | unreadable => simp [readMode]
    | content s =>
        simp only [readMode]
        split
        · next h => rcases h with h | h | h <;> simp [h]
        · simp
  · intro c h1 h2 h3
    simp [readMode, h1, h2, h3]
  · intro c h
    simp [readMode, h]

/-- Closed instantiation of `readMode_total_and_valid`: invalid trimmed
content and a missing file both resolve to `local`. -/
theorem readMode_total_and_valid_witness :
    readMode (.content " banana ") = "local" ∧ readMode .missing = "local" := by
  have h := readMode_total_and_valid
  exact ⟨h.2.2.2.1 " banana " (by decide) (by decide) (by decide), h.2.1⟩

/-- C7 counterexample: the claim "the resolved value is one of local,
remote, readonly" fails on the code.  `getSessionMode` returns the
session mode file's trimmed content without any validation, so a session
mode file containing `banana` makes `getEffectiveMode` return `banana`,
which is none of the three valid modes. -/
theorem getEffectiveMode_invalid_session_value :
    getEffectiveMode (.content "banana") .missing .missing .missing = "banana"
    ∧ ¬("banana" = "local" ∨ "banana" = "remote" ∨ "banana" = "readonly") := by
  exact ⟨rfl, by decide⟩

/-- C7 (amended): the three-level hierarchy holds — the session-level mode
when set (non-empty), otherwise the project-level mode when set, otherwise
the global `ConfigManager.readMode` — and the global fallback is always one
of `{remote, local, readonly}` with `local` as its default.  The resolved
value lies in `{remote, local, readonly}` whenever the session- and
project-level mode files, if set, hold a valid mode; session- and
project-level values are otherwise passed through unvalidated. -/
theorem getEffectiveMode_hierarchy :
    (∀ sf af cf gf, truthy (getSessionMode sf) = true →
        getEffectiveMode sf af cf gf = (getSessionMode sf).getD "")
    ∧ (∀ sf af cf gf, truthy (getSessionMode sf) = false →
        truthy (getProjectMode af cf) = true →
        getEffectiveMode sf af cf gf = (getProjectMode af cf).getD "")
    ∧ (∀ sf af cf gf, truthy (getSessionMode sf) = false →
        truthy (getProjectMode af cf) = false →
        getEffectiveMode sf af cf gf = readMode gf)
    ∧ (∀ gf, readMode gf = "remote" ∨ readMode gf = "local" ∨ readMode gf = "readonly")
    ∧ readMode .missing = "local"
    ∧ (∀ sf af cf gf,
        (∀ m, getSessionMode sf = some m → m ≠ "" →
          (m = "remote" ∨ m = "local" ∨ m = "readonly")) →
        (∀ m, getProjectMode af cf = some m → m ≠ "" →
          (m = "remote" ∨ m = "local" ∨ m = "readonly")) →
        (getEffectiveMode sf af cf gf = "remote" ∨ getEffectiveMode sf af cf gf = "local" ∨
          getEffectiveMode sf af cf gf = "readonly")) := by
  have hval : ∀ f : FileRead,
      readMode f = "remote" ∨ readMode f = "local" ∨ readMode f = "readonly" :=
    readMode_total_and_valid.1
  refine ⟨?_, ?_, ?_, hval, rfl, ?_⟩
  · intro sf af cf gf h
    simp [getEffectiveMode, h]
  · intro sf af cf gf h1 h2
    simp [getEffectiveMode, h1, h2]
  · intro sf af cf gf h1 h2
    simp [getEffectiveMode, h1, h2]
  · intro sf af cf gf hs hp
    by_cases h1 : truthy (getSessionMode sf) = true
    · cases hm : getSessionMode sf with
      | none => rw [hm] at h1; simp [truthy] at h1
      | some m =>
          rw [hm] at h1
          have hm' : m ≠ "" := by simpa [truthy] using h1
          have := hs m hm hm'
          simp [getEffectiveMode, hm, h1]
          exact this
    · have h1' : truthy (getSessionMode sf) = false := by
        simpa using h1
      by_cases h2 : truthy (getProjectMode af cf) = true
      · cases hm : getProjectMode af cf with
        | none => rw [hm] at h2; simp [truthy] at h2
        | some m =>
            rw [hm] at h2
            have hm' : m ≠ "" := by simpa [truthy] using h2
            have := hp m hm hm'
            simp [getEffectiveMode, h1', hm, h2]
            exact this
      · have h2' : truthy (getProjectMode af cf) = false := by
          simpa using h2
        simp [getEffectiveMode, h1', h2']
        exact hval gf

/-- Closed instantiation of `getEffectiveMode_hierarchy`: a session-level
`remote` overrides a project-level `readonly` and a global `local`. -/
theorem getEffectiveMode_hierarchy_witness :
    getEffectiveMode (.content "remote") (.content "readonly") .missing (.content "local")
      = "remote" := by
  have h := getEffectiveMode_hierarchy.1
    (.content "remote") (.content "readonly") .missing (.content "local") (by decide)
  simpa using h

/-- C8: the reply-lock ownership check `isMyMessage` returns true exactly
when no lock is held, or the caller's session owns the lock, or the
incoming message is a structured reply to exactly the locked message id;
in every other case it returns false. -/
theorem isMyMessage_iff :
    ∀ (lock : Option ReplyLock) (sessionId : String) (message : TgMessage),
      isMyMessage lock sessionId message = true ↔
        (lock = none
          ∨ (∃ l, lock = some l ∧ l.sessionId = sessionId)
          ∨ (∃ l, lock = some l ∧ message.reply_to_message = some l.messageId)) := by
  intro lock sid msg
  cases lock with
  | none => simp [isMyMessage]
  | some l =>
      by_cases hs : l.sessionId = sid
      · simp [isMyMessage, hs]
      · cases hr : msg.reply_to_message with
        | none => simp [isMyMessage, hs, hr]
        | some mid =>
            by_cases hm : mid = l.messageId
            · simp [isMyMessage, hs, hr, hm]
            · simp [isMyMessage, hs, hr, hm]

/-- Closed instantiation of `isMyMessage_iff`: with the lock held by
session `A` and bound to message 7, session `A` may take a free-text
message, session `B` may not, and session `B` may take a structured reply
to message 7. -/
theorem isMyMessage_iff_witness :
    isMyMessage (some ⟨"A", 7, 0⟩) "A" ⟨none⟩ = true
    ∧ isMyMessage (some ⟨"A", 7, 0⟩) "B" ⟨none⟩ = false
    ∧ isMyMessage (some ⟨"A", 7, 0⟩) "B" ⟨some 7⟩ = true := by
  refine ⟨?_, ?_, ?_⟩
  · exact (isMyMessage_iff (some ⟨"A", 7, 0⟩) "A" ⟨none⟩).mpr
      (Or.inr (Or.inl ⟨⟨"A", 7, 0⟩, rfl, rfl⟩))
  · have h := isMyMessage_iff (some ⟨"A", 7, 0⟩) "B" ⟨none⟩
    by_contra hb
    have : isMyMessage (some ⟨"A", 7, 0⟩) "B" ⟨none⟩ = true := by
      revert hb; decide
    rcases h.mp this with h1 | ⟨l, hl, hsid⟩ | ⟨l, hl, hrep⟩
    · exact Option.noConfusion h1
    · cases Option.some.inj hl; exact absurd hsid (by decide)
    · cases Option.some.inj hl; exact Option.noConfusion hrep
  · exact (isMyMessage_iff (some ⟨"A", 7, 0⟩) "B" ⟨some 7⟩).mpr
      (Or.inr (Or.inr ⟨⟨"A", 7, 0⟩, rfl, rfl⟩))

/-- C9: `checkAbandonedSessions` lists a tracked session exactly when its
heartbeat age strictly exceeds the threshold: a session record is in the
returned list iff it is tracked and `now - lastActivity` (milliseconds)
exceeds `timeoutSeconds * 1000`; no session within the threshold is ever
listed. -/
theorem checkAbandonedSessions_iff :
    ∀ (now timeoutSeconds : Int) (sessions : List SessionRec) (s : SessionRec),
      s ∈ checkAbandonedSessions now timeoutSeconds sessions ↔
        s ∈ sessions ∧ now - s.lastActivity > timeoutSeconds * 1000 := by
  intro now t sessions s
  simp only [checkAbandonedSessions, List.mem_filter, decide_eq_true_eq]
  refine and_congr_right fun _ => ?_
  rw [gt_iff_lt, lt_div_iff₀ (by norm_num : (0:ℚ) < 1000)]
  exact_mod_cast Iff.rfl

/-- Closed instantiation of `checkAbandonedSessions_iff`: with a 10-second
threshold, a session 10.5 seconds stale is listed and a session exactly
10 seconds stale is not. -/
theorem checkAbandonedSessions_iff_witness :
    (⟨"s1", 0⟩ : SessionRec) ∈ checkAbandonedSessions 10500 10 [⟨"s1", 0⟩, ⟨"s2", 500⟩]
    ∧ (⟨"s2", 500⟩ : SessionRec) ∉ checkAbandonedSessions 10500 10 [⟨"s1", 0⟩, ⟨"s2", 500⟩] := by
  constructor
  · exact (checkAbandonedSessions_iff 10500 10 [⟨"s1", 0⟩, ⟨"s2", 500⟩] ⟨"s1", 0⟩).mpr
      ⟨by decide, by decide⟩
  · intro hmem
    have h := (checkAbandonedSessions_iff 10500 10 [⟨"s1", 0⟩, ⟨"s2", 500⟩] ⟨"s2", 500⟩).mp hmem
    exact absurd h.2 (by decide)

/-- Helper: `List.contains` agrees with membership on `Nat` lists. -/
theorem contains_eq_true_of_mem {l : List Nat} {a : Nat} (h : a ∈ l) :
    l.contains a = true := by
  rw [List.contains_eq_any_beq, List.any_eq_true]
  exact ⟨a, h, by simp⟩

/-- Helper: a `false` result of `List.contains` means non-membership. -/
theorem not_mem_of_contains_eq_false {l : List Nat} {a : Nat}
    (h : l.contains a = false) : a ∉ l := by
  intro hmem
  rw [contains_eq_true_of_mem hmem] at h
  exact Bool.noConfusion h

/-- Helper: any entry returned by `getMyMessages` has an unprocessed
`update_id` (queue.js line 211 skips processed ids). -/
theorem mem_getMyMessages_not_processed {f : Update → Bool} {s : QueueState} {m : Entry}
    (h : m ∈ getMyMessages f s) : m.update_id ∉ getProcessedUpdateIds s := by
  simp only [getMyMessages, List.mem_filter, Bool.and_eq_true, Bool.not_eq_true'] at h
  exact not_mem_of_contains_eq_false h.2.1

/-- Helper: the dedup-then-append step leaves the processed log
untouched. -/
theorem processed_dedupThenAppend (us : List Update) (s : QueueState) :
    getProcessedUpdateIds (dedupThenAppend us s) = getProcessedUpdateIds s := rfl

/-- Helper: the global-queue id list after the dedup-then-append step is
the old one followed by the truthy (non-zero) ids of the updates surviving
the dedup filter. -/
theorem globalIds_dedupThenAppend (us : List Update) (s : QueueState) :
    getGlobalQueueUpdateIds (dedupThenAppend us s)
      = getGlobalQueueUpdateIds s
        ++ ((us.filter fun u =>
              !(getProcessedUpdateIds s).contains u.update_id &&
              !(getGlobalQueueUpdateIds s).contains u.update_id).map
                Update.update_id).filter fun i => decide (i ≠ 0) := by
  simp only [getGlobalQueueUpdateIds, dedupThenAppend, appendToGlobalQueue,
    List.map_append, List.filter_append, List.map_map]
  rfl

theorem mem_knownIds_dedupThenAppend {us : List Update} {s : QueueState} {i : Nat} :
    i ∈ knownIds (dedupThenAppend us s)
      ↔ i ∈ knownIds s ∨ (i ≠ 0 ∧ ∃ u ∈ us, u.update_id = i) := by
  unfold knownIds
  rw [globalIds_dedupThenAppend, processed_dedupThenAppend]
  simp only [Finset.mem_union, List.mem_toFinset, List.mem_append, List.mem_filter,
    List.mem_map, Bool.and_eq_true, Bool.not_eq_true', decide_eq_true_eq]
  constructor
  · rintro ((h | ⟨⟨u, ⟨hu, _, _⟩, hid⟩, hne⟩) | h)
    · exact Or.inl (Or.inl h)
    · exact Or.inr ⟨hne, u, hu, hid⟩
    · exact Or.inl (Or.inr h)
  · rintro ((h | h) | ⟨hne, u, hu, hid⟩)
    · exact Or.inl (Or.inl h)
    · exact Or.inr h
    · by_cases hg : i ∈ getGlobalQueueUpdateIds s
      · exact Or.inl (Or.inl hg)
      · by_cases hp : i ∈ getProcessedUpdateIds s
        · exact Or.inr hp
        · refine Or.inl (Or.inr ⟨⟨u, ⟨hu, ?_, ?_⟩, hid⟩, hne⟩)
          · cases hc : (getProcessedUpdateIds s).contains u.update_id
            · rfl
            · exfalso
              rw [List.contains_eq_any_beq, List.any_eq_true] at hc
              rcases hc with ⟨x, hx, hax⟩
              have hax2 : u.update_id = x := by simpa using hax
              exact hp (by rw [← hid, hax2]; exact hx)
          · cases hc : (getGlobalQueueUpdateIds s).contains u.update_id
            · rfl
            · exfalso
              rw [List.contains_eq_any_beq, List.any_eq_true] at hc
              rcases hc with ⟨x, hx, hax⟩
              have hax2 : u.update_id = x := by simpa using hax
              exact hg (by rw [← hid, hax2]; exact hx)

/-- Helper invariant for the at-most-once claim property: along any
sequence of queue operations whose fetched updates all carry truthy
(non-zero) ids, starting from a global queue containing only truthy ids,
the claimed ids are pairwise distinct and none of them was processed at
the start. -/
theorem qrun_claims_nodup_aux :
    ∀ (ops : List QOp) (s : QueueState),
      (∀ op ∈ ops, ∀ us, op = QOp.fetch us → ∀ u ∈ us, u.update_id ≠ 0) →
      (∀ e ∈ s.globalQueue, e.update_id ≠ 0) →
      (qrun ops s).2.Nodup ∧ ∀ i ∈ (qrun ops s).2, i ∉ getProcessedUpdateIds s := by
  intro ops
  induction ops with
  | nil => intro s _ _; simp [qrun]
  | cons op ops ih =>
      intro s hops hglob
      have hops2 : ∀ op2 ∈ ops, ∀ us, op2 = QOp.fetch us → ∀ u ∈ us, u.update_id ≠ 0 :=
        fun op2 h2 => hops op2 (List.mem_cons_of_mem _ h2)
      cases op with
      | fetch us =>
          have hus : ∀ u ∈ us, u.update_id ≠ 0 :=
            hops (QOp.fetch us) (List.mem_cons_self _ _) us rfl
          have hglob2 : ∀ e ∈ (dedupThenAppend us s).globalQueue, e.update_id ≠ 0 := by
            intro e he
            simp only [dedupThenAppend, appendToGlobalQueue, List.mem_append,
              List.mem_map, List.mem_filter] at he
            rcases he with he | ⟨u, hu, rfl⟩
            · exact hglob e he
            · exact hus u hu.1
          have h := ih (dedupThenAppend us s) hops2 hglob2
          have heq : (qrun (QOp.fetch us :: ops) s).2
              = (qrun ops (dedupThenAppend us s)).2 := by
            simp [qrun, qstep]
          rw [heq]
          exact ⟨h.1, fun i hi => by
            have := h.2 i hi
            rwa [processed_dedupThenAppend] at this⟩
      | claim f hk =>
          cases hm : getMyMessages f s with
          | nil =>
              have h := ih s hops2 hglob
              have heq : (qrun (QOp.claim f hk :: ops) s).2 = (qrun ops s).2 := by
                simp [qrun, qstep, claimCritical, hm]
              rw [heq]
              exact h
          | cons m rest =>
              have hmem : m ∈ getMyMessages f s := by rw [hm]; exact List.mem_cons_self m rest
              have hmg : m ∈ s.globalQueue := by
                have h2 := hmem
                simp only [getMyMessages, List.mem_filter] at h2
                exact h2.1
              have hm0 : m.update_id ≠ 0 := hglob m hmg
              have hnp : m.update_id ∉ getProcessedUpdateIds s :=
                mem_getMyMessages_not_processed hmem
              have hglob2 : ∀ e ∈ (markUpdateAsProcessed m.update_id hk s).globalQueue,
                  e.update_id ≠ 0 := hglob
              have h := ih (markUpdateAsProcessed m.update_id hk s) hops2 hglob2
              have hproc : getProcessedUpdateIds (markUpdateAsProcessed m.update_id hk s)
                  = getProcessedUpdateIds s ++ [m.update_id] := by
                simp [markUpdateAsProcessed, getProcessedUpdateIds, List.filter_append, hm0]
              have heq : (qrun (QOp.claim f hk :: ops) s).2
                  = m.update_id :: (qrun ops (markUpdateAsProcessed m.update_id hk s)).2 := by
                simp [qrun, qstep, claimCritical, hm]
              rw [heq]
              constructor
              · refine List.nodup_cons.mpr ⟨?_, h.1⟩
                intro hin
                have := h.2 m.update_id hin
                rw [hproc] at this
                exact this (List.mem_append_right _ (List.mem_singleton.mpr rfl))
              · intro i hi
                rcases List.mem_cons.mp hi with hi | hi
                · exact hi ▸ hnp
                · have := h.2 i hi
                  rw [hproc] at this
                  exact fun hmem2 => this (List.mem_append_left _ hmem2)

/-- C6 (amended): for updates with truthy (non-zero) `update_id`s — the
only kind the Telegram source assigns — the dedup-then-append step of the
poller is idempotent on known ids: the known-id set after the step is a
superset of the one before and equals it united with the ids of the
fetched batch, so its size grows only for genuinely new ids; an update
whose id is already known adds no second claimable envelope (its entry
count in the global queue is unchanged); and along any sequence of
fetch/claim operations with truthy ids from the initial empty state, a
claim returns each `update_id` at most once overall.  (An update with the
JS-falsy id 0 bypasses the `if (entry.update_id)` guards of queue.js
lines 246 and 281 and is neither deduplicated nor remembered as
processed.) -/
theorem dedup_append_claim_at_most_once :
    (∀ (us : List Update) (s : QueueState), knownIds s ⊆ knownIds (dedupThenAppend us s))
    ∧ (∀ (us : List Update) (s : QueueState), (∀ u ∈ us, u.update_id ≠ 0) →
        knownIds (dedupThenAppend us s) = knownIds s ∪ (us.map Update.update_id).toFinset)
    ∧ (∀ (us : List Update) (s : QueueState), (∀ u ∈ us, u.update_id ≠ 0) →
        (knownIds (dedupThenAppend us s)).card
          = ((us.map Update.update_id).toFinset \ knownIds s).card + (knownIds s).card)
    ∧ (∀ (us : List Update) (s : QueueState) (i : Nat), i ∈ knownIds s →
        entryCount i (dedupThenAppend us s) = entryCount i s)
    ∧ (∀ ops : List QOp,
        (∀ op ∈ ops, ∀ us, op = QOp.fetch us → ∀ u ∈ us, u.update_id ≠ 0) →
        (qrun ops initQueueState).2.Nodup) := by
  have hunion : ∀ (us : List Update) (s : QueueState), (∀ u ∈ us, u.update_id ≠ 0) →
      knownIds (dedupThenAppend us s) = knownIds s ∪ (us.map Update.update_id).toFinset := by
    intro us s hz
    ext i
    simp only [mem_knownIds_dedupThenAppend, Finset.mem_union, List.mem_toFinset,
      List.mem_map]
    constructor
    · rintro (h | ⟨_, u, hu, hid⟩)
      · exact Or.inl h
      · exact Or.inr ⟨u, hu, hid⟩
    · rintro (h | ⟨u, hu, hid⟩)
      · exact Or.inl h
      · exact Or.inr ⟨hid ▸ hz u hu, u, hu, hid⟩
  refine ⟨?_, hunion, ?_, ?_, ?_⟩
  · intro us s i hi
    exact mem_knownIds_dedupThenAppend.mpr (Or.inl hi)
  · intro us s hz
    rw [hunion us s hz, Finset.union_comm]
    exact (Finset.card_sdiff_add_card _ _).symm
  · intro us s i hi
    simp only [entryCount, dedupThenAppend, appendToGlobalQueue, List.filter_append,
      List.length_append]
    have : List.filter (fun e => e.update_id = i)
        ((List.filter (fun u =>
          !(getProcessedUpdateIds s).contains u.update_id &&
          !(getGlobalQueueUpdateIds s).contains u.update_id) us).map
            fun u => Entry.mk u.update_id u) = [] := by
      rw [List.filter_eq_nil_iff]
      intro e he
      simp only [List.mem_map, List.mem_filter, Bool.and_eq_true, Bool.not_eq_true'] at he
      rcases he with ⟨u, ⟨_, hp, hg⟩, rfl⟩
      simp only [decide_eq_true_eq]
      intro hid
      rcases Finset.mem_union.mp hi with hg2 | hp2
      · rw [List.mem_toFinset] at hg2
        have : (getGlobalQueueUpdateIds s).contains u.update_id = true := by
          rw [List.contains_eq_any_beq]
          simp only [List.any_eq_true, beq_iff_eq]
          exact ⟨i, hg2, hid⟩
        rw [this] at hg
        exact Bool.noConfusion hg
      · rw [List.mem_toFinset] at hp2
        have : (getProcessedUpdateIds s).contains u.update_id = true := by
          rw [List.contains_eq_any_beq]
          simp only [List.any_eq_true, beq_iff_eq]
          exact ⟨i, hp2, hid⟩
        rw [this] at hp
        exact Bool.noConfusion hp
    rw [this]
    simp
  · intro ops hz
    exact (qrun_claims_nodup_aux ops initQueueState hz (by simp [initQueueState])).1

/-- C6 counterexample to the claim as originally stated: with the
truthiness guards of queue.js lines 246 and 281 modelled faithfully, an
update carrying the JS-falsy `update_id` 0 is never deduplicated and
never remembered as processed.  Fetching it twice appends two claimable
envelopes, two successive claims both return id 0 (the claimed-id list is
`[0, 0]`, not duplicate-free), and the known-id set after the append does
not absorb the appended id. -/
theorem dedup_append_id_zero_double_claim :
    (qrun [QOp.fetch [u0], QOp.claim (fun _ => true) "h1",
           QOp.fetch [u0], QOp.claim (fun _ => true) "h2"] initQueueState).2 = [0, 0]
    ∧ ¬ (qrun [QOp.fetch [u0], QOp.claim (fun _ => true) "h1",
           QOp.fetch [u0], QOp.claim (fun _ => true) "h2"] initQueueState).2.Nodup
    ∧ entryCount 0 (dedupThenAppend [u0] (dedupThenAppend [u0] initQueueState)) = 2
    ∧ knownIds (dedupThenAppend [u0] initQueueState)
        ≠ knownIds initQueueState ∪ ([u0].map Update.update_id).toFinset := by
  refine ⟨by decide, by decide, by decide, by decide⟩

/-- Closed instantiation of `dedup_append_claim_at_most_once` at truthy
ids: fetching the same update (id 1) twice and claiming twice yields
exactly one claim, and re-appending a known id neither grows the known-id
set nor adds a second envelope. -/
theorem dedup_append_claim_at_most_once_witness :
    (let s : QueueState := dedupThenAppend [u1] initQueueState
     knownIds s ⊆ knownIds (dedupThenAppend [u1] s)
     ∧ knownIds (dedupThenAppend [u1] s) = knownIds s ∪ ([u1].map Update.update_id).toFinset
     ∧ entryCount 1 (dedupThenAppend [u1] s) = entryCount 1 s)
    ∧ (qrun [QOp.fetch [u1], QOp.claim (fun _ => true) "h1",
             QOp.fetch [u1], QOp.claim (fun _ => true) "h2"]
        initQueueState).2.Nodup := by
  have h := dedup_append_claim_at_most_once
  refine ⟨⟨h.1 _ _, h.2.1 _ _ ?_, h.2.2.2.1 _ _ 1 (by decide)⟩, h.2.2.2.2 _ ?_⟩
  · intro u hu
    rcases List.mem_singleton.mp hu with rfl
    decide
  · intro op hop us heq u hu
    simp only [List.mem_cons, List.not_mem_nil, or_false] at hop
    rcases hop with rfl | rfl | rfl | rfl
    · cases heq
      rcases List.mem_singleton.mp hu with rfl
      decide
    · exact QOp.noConfusion heq
    · cases heq
      rcases List.mem_singleton.mp hu with rfl
      decide
    · exact QOp.noConfusion heq

/-- Helper: `distributedTelegramPoll` returns `null` (cancellation) only
when some tick read mode `local`. -/
theorem pollLoop_cancelled_has_local {f : Update → Bool} {hk : String} :
    ∀ (ticks : List Tick) (s : QueueState),
      (pollLoop f hk ticks s).1 = .cancelled → ∃ t ∈ ticks, t.mode = "local" := by
  intro ticks
  induction ticks with
  | nil => intro s hr; simp [pollLoop] at hr
  | cons t rest ih =>
      intro s hr
      simp only [pollLoop] at hr
      split at hr
      · next hm => exact ⟨t, List.mem_cons_self t rest, hm⟩
      · next hm =>
          split at hr
          · rcases ih _ hr with ⟨t2, ht2, hm2⟩
            exact ⟨t2, List.mem_cons_of_mem _ ht2, hm2⟩
          · split at hr
            · simp at hr
            · rcases ih _ hr with ⟨t2, ht2, hm2⟩
              exact ⟨t2, List.mem_cons_of_mem _ ht2, hm2⟩

/-- Helper: when `distributedTelegramPoll` throws its timeout error, no
tick of the wait had read mode `local`. -/
theorem pollLoop_timedOut_no_local {f : Update → Bool} {hk : String} :
    ∀ (ticks : List Tick) (s : QueueState),
      (pollLoop f hk ticks s).1 = .timedOut → ∀ t ∈ ticks, t.mode ≠ "local" := by
  intro ticks
  induction ticks with
  | nil => intro s _ t ht; simp at ht
  | cons t rest ih =>
      intro s hr t2 ht2
      simp only [pollLoop] at hr
      split at hr
      · simp at hr
      · next hm =>
          rcases List.mem_cons.mp ht2 with rfl | ht2
          · exact hm
          · split at hr
            · exact ih _ hr t2 ht2
            · split at hr
              · simp at hr
              · exact ih _ hr t2 ht2

/-- C3: `distributedTelegramPoll` never conflates its two non-claim
outcomes: `null` is returned only when the externally read mode was
`local` at some tick of the wait; the timeout error is thrown only when no
tick read `local`; a wait whose ticks never read `local` ends in a claim
or the timeout throw, never in `null`; an expired time budget (no tick
passes the loop guard) throws; and a tick that reads `local` returns
`null` immediately, leaving the queue untouched. -/
theorem distributedTelegramPoll_timeout_vs_cancellation :
    ∀ (f : Update → Bool) (hk : String) (ticks : List Tick) (s : QueueState),
      ((pollLoop f hk ticks s).1 = .cancelled → ∃ t ∈ ticks, t.mode = "local")
      ∧ ((pollLoop f hk ticks s).1 = .timedOut → ∀ t ∈ ticks, t.mode ≠ "local")
      ∧ ((∀ t ∈ ticks, t.mode ≠ "local") →
          (pollLoop f hk ticks s).1 = .timedOut
          ∨ ∃ u, (pollLoop f hk ticks s).1 = .claimed u)
      ∧ (pollLoop f hk [] s).1 = .timedOut
      ∧ (∀ t rest, t.mode = "local" → pollLoop f hk (t :: rest) s = (.cancelled, s)) := by
  intro f hk ticks s
  refine ⟨pollLoop_cancelled_has_local ticks s, pollLoop_timedOut_no_local ticks s, ?_, rfl, ?_⟩
  · intro hnl
    cases hr : (pollLoop f hk ticks s).1 with
    | claimed u => exact Or.inr ⟨u, rfl⟩
    | timedOut => exact Or.inl rfl
    | cancelled =>
        rcases pollLoop_cancelled_has_local ticks s hr with ⟨t, ht, hm⟩
        exact absurd hm (hnl t ht)
  · intro t rest hm
    simp [pollLoop, hm]

/-- Closed instantiation of `distributedTelegramPoll_timeout_vs_cancellation`:
a wait whose first tick reads mode `local` is cancelled (and that trace
contains a `local` tick); an expired time budget times out. -/
theorem distributedTelegramPoll_timeout_vs_cancellation_witness :
    (∃ t ∈ [Tick.mk "local" false []], t.mode = "local")
    ∧ (pollLoop (fun _ => false) "hook-1" [] initQueueState).1 = .timedOut := by
  have h := distributedTelegramPoll_timeout_vs_cancellation (fun _ => false) "hook-1"
    [Tick.mk "local" false []] initQueueState
  exact ⟨h.1 (by decide), h.2.2.2.1⟩

/-- C4: the claim fails on the code — it is a slip.  When the poll wait is
cancelled (`distributedTelegramPoll` returns `null` after the mode flipped
to `local`), `waitForApproval` does *not* fall through to the host's
native handling: the `null` lands in the "Handle timeout" block
(claude-hooks.js lines 2147-2165), so with the default
`timeout_action = deny` the call returns the auto-deny decision — whose
message even cites the configured timeout, although no timeout elapsed —
instead of the no-opinion fall-through the spec (and queue.js's own
comment at lines 485-486, "Claude will proceed with local permissions")
requires.  Evaluated at the failing input: default config, one tick with
mode `local`. -/
theorem waitForApproval_cancellation_applies_timeout_action :
    waitForApproval none none "ap1" [Tick.mk "local" false []] initQueueState
      = .decided ⟨"deny", some "Auto-denied after 3600s timeout"⟩
    ∧ waitForApproval none none "ap1" [Tick.mk "local" false []] initQueueState
      ≠ .noOpinion := by
  exact ⟨by decide, by decide⟩

/-- C5: the claim fails on the code — it is a slip.  With
`timeout_action = deny` and no matching response before the configured
timeout, `waitForApproval` never reaches its own deny branch:
`distributedTelegramPoll` *throws* on timeout (queue.js line 561), and
`waitForApproval` awaits it with no try/catch (claude-hooks.js line 2131),
so the exception propagates and the call terminates abnormally instead of
returning the structured deny decision citing the timeout.  Evaluated at
the failing input: `timeout_seconds = 3600`, `timeout_action = deny`, a
wait during which no matching message ever arrives and the time budget
expires. -/
theorem waitForApproval_timeout_raises :
    waitForApproval (some 3600) (some "deny") "ap1" [Tick.mk "remote" false []] initQueueState
      = .raised
    ∧ waitForApproval (some 3600) (some "deny") "ap1" [Tick.mk "remote" false []] initQueueState
      ≠ .decided ⟨"deny", some "Auto-denied after 3600s timeout"⟩ := by
  exact ⟨by decide, by decide⟩

set_option maxRecDepth 40000

/-- C1: the at-most-one-claim guarantee fails on the code — it is a slip.
In `atomicClaimMessage` every path through the lock-retry loop's
`try/catch` ends in `break`, `continue` or `throw`, so the
`if (attempt === maxAttempts - 1) return null` after it (queue.js
lines 131-134) is unreachable, and after 50 failed attempts control falls
through to the scan-and-claim section without the lock.  In the real
interleaving modelled here, claimant `A` holds the lock and scans while
claimant `B` exhausts its 50 attempts and falls through; both scan before
either writes, and both callers are returned the envelope with
`update_id 1`, leaving two claim records for the same id. -/
theorem atomicClaimMessage_double_claim :
    (sysRun raceSpecs raceSched raceInit).phases
      = [.done (some e1), .done (some e1)]
    ∧ (sysRun raceSpecs raceSched raceInit).queue.processed = [(1, "A"), (1, "B")]
    ∧ ¬ (getProcessedUpdateIds (sysRun raceSpecs raceSched raceInit).queue).Nodup := by
  refine ⟨by decide, by decide, by decide⟩

/-- C2: the bounded-retry contract fails on the code — it is a slip.  When
the lock file stays held by another process for all 50 attempts,
`atomicClaimMessage` does not return `null` without touching the queue:
the unreachable `return null` (queue.js lines 131-134) is skipped, the
call falls through to scan the queue and write a claim record while the
token is still held by `other`, and its `finally` block then deletes
`other`'s lock file.  Evaluated on the single-process run whose lock is
externally held throughout. -/
theorem atomicClaimMessage_lock_exhaustion_falls_through :
    (sysRun soloSpecs soloSched soloInit).phases = [.done (some e1)]
    ∧ (sysRun soloSpecs soloSched soloInit).queue.processed = [(1, "B")]
    ∧ (sysRun soloSpecs soloSched soloInit).lock = none := by
  refine ⟨by decide, by decide, by decide⟩

end Afk
